import Mathlib

/-!
A verification development for the input-output widget library.

The TypeScript sources are embedded shallowly: the pure computations of the
widgets (pagination of the sector ranking, the ranking sort, the delimited
export, the stale-result check, the matrix selection round-trip, and the
commodity-list selection logic) become Lean functions over explicit data,
and the theorems below settle the documented properties against them.

JavaScript numbers are modelled as `Int` (an `Option Int` where `NaN` can
arise, with `none` standing for `NaN`); absent (`undefined`/`null`) values
are modelled with `Option`; JavaScript truthiness is made explicit at each
use site.
-/

namespace USEEIO

/-- A sector of the model (fields as used by the widgets). -/
structure Sector where
  id : String := ""
  index : Nat := 0
  code : String := ""
  name : String := ""
  description : String := ""
deriving DecidableEq

/-- An indicator of the model (fields as used by the widgets). -/
structure Indicator where
  id : String := ""
  code : String := ""
  name : String := ""
  unit : String := ""
deriving DecidableEq

/--
The shared widget configuration, with the fields that the embedded widgets
read or write.  `view` is the multi-valued view-mode field; `sectors` holds
the sector selection as `code` or `code:factor` strings; `count`/`page`
drive pagination.  Absent fields are `none`.
-/
structure Config where
  view : Option (List String) := none
  perspective : Option String := none
  analysis : Option String := none
  year : Option Int := none
  location : Option String := none
  sectors : Option (List String) := none
  indicators : Option (List String) := none
  count : Option Int := none
  page : Option Int := none
  naics : Option (List String) := none
  showvalues : Bool := false
  showdownload : Bool := false
deriving DecidableEq

/-- JavaScript truthiness of an optional string: `undefined`, `null` and the
empty string are falsy. -/
def jsTruthyStr (s : Option String) : Bool :=
  match s with
  | none => false
  | some v => v != ""

/-- JavaScript `a || d` for an optional number `a`: `undefined`, `null` and
`0` fall through to the default. -/
def jsOrInt (a : Option Int) (d : Int) : Int :=
  match a with
  | none => d
  | some v => if v = 0 then d else v

namespace MatrixSelector

/-- The matrix mnemonics of the matrix-selector widget: direct (D) and
upstream (U) 1-USD matrices, and the demand-based results (RD, RU). -/
inductive Matrix where
  | D
  | U
  | RD
  | RU
deriving DecidableEq

/-- `matrixOf` of the matrix selector: determine the matrix type from the
given configuration (a missing configuration or perspective means RU). -/
def matrixOf (config : Option Config) : Matrix :=
  match config with
  | none => .RU
  | some c =>
    if !jsTruthyStr c.perspective then .RU
    else if c.perspective = some "direct" then
      if !jsTruthyStr c.analysis then .D else .RD
    else
      if !jsTruthyStr c.analysis then .U else .RU

/-- `update` of the matrix selector: write the perspective and analysis
fields that correspond to the selected matrix into the configuration.  The
1-USD matrices clear the analysis type; the result matrices default it to
Consumption when it is not already set. -/
def update (config : Option Config) (matrix : Matrix) : Config :=
  let conf : Config := match config with
    | none => {}
    | some c => c
  match matrix with
  | .D => { conf with analysis := none, perspective := some "direct" }
  | .U => { conf with analysis := none, perspective := some "final" }
  | .RD =>
    { conf with
      analysis := if !jsTruthyStr conf.analysis then some "Consumption" else conf.analysis,
      perspective := some "direct" }
  | .RU =>
    { conf with
      analysis := if !jsTruthyStr conf.analysis then some "Consumption" else conf.analysis,
      perspective := some "final" }

end MatrixSelector

end USEEIO

namespace USEEIO

namespace IndustryList

/-- JavaScript `Array.slice(a, b)` for the nonnegative index ranges that the
pagination code produces. -/
def jsSlice (l : List α) (a b : Int) : List α :=
  (l.take b.toNat).drop a.toNat

/--
The page-selection step of the industry-list component: given the full
ranking and the configured `count` and `page`, produce the rendered row
slice.  An absent or non-positive count leaves the list unsliced.  Pages at
or below 1 take the first `count` rows; otherwise the slice starts at
`(page - 1) * count` when that offset is inside the list and falls back to
the first `count` rows when it is not.  An absent page behaves like the
fallback branch (in the source, `page <= 1` and `offset < length` are both
false for an undefined page).
-/
def paginate (l : List α) (count page : Option Int) : List α :=
  match count with
  | none => l
  | some cnt =>
    if cnt ≠ 0 ∧ 0 ≤ cnt then
      match page with
      | none => jsSlice l 0 cnt
      | some p =>
        if p ≤ 1 then jsSlice l 0 cnt
        else if (p - 1) * cnt < (l.length : Int) then
          jsSlice l ((p - 1) * cnt) ((p - 1) * cnt + cnt)
        else jsSlice l 0 cnt
    else l

/-- Lexicographic strict comparison of character lists by code point, the
computational core of the modelled string comparison. -/
def charListLt : List Char → List Char → Bool
  | [], [] => false
  | [], _ :: _ => true
  | _ :: _, [] => false
  | a :: as, b :: bs =>
    if a.toNat < b.toNat then true
    else if b.toNat < a.toNat then false
    else charListLt as bs

/-- Strict lexicographic order on strings, by code point. -/
def stringLtB (a b : String) : Bool :=
  charListLt a.toList b.toList

/-- Non-strict lexicographic order on strings (not strictly greater). -/
def stringLeB (a b : String) : Bool :=
  !stringLtB b a

/--
Modelled from the spec: `util/strings.ts` (the `compare` helper) is not
under the sources; per the spec, equal scores fall back to alphabetical
order by name, so `compare` is the usual three-way lexicographic string
comparison returning a negative, zero or positive number.
-/
def stringsCompare (a b : String) : Int :=
  if stringLtB a b then -1 else if stringLtB b a then 1 else 0

/-- The sort comparator of the industry-list ranking: descending by score
(`rank2 - rank1`), with `strings.compare` on the sector names as the
tie-break for equal scores. -/
def rankComparator (x y : Sector × Int) : Int :=
  if x.2 = y.2 then stringsCompare x.1.name y.1.name else y.2 - x.2

/-- The order underlying `Array.sort` with `rankComparator`: `x` may come
before `y` exactly when the comparator is non-positive. -/
def RankLe (x y : Sector × Int) : Prop :=
  rankComparator x y ≤ 0

instance : DecidableRel RankLe := fun x y => by
  unfold RankLe; infer_instance

/-- The strict character-list order is asymmetric. -/
theorem charListLt_asymm :
    ∀ {a b : List Char}, charListLt a b = true → charListLt b a = false := by
  intro a
  induction a with
  | nil => intro b h; cases b <;> simp_all [charListLt]
  | cons x xs ih =>
    intro b h
    cases b with
    | nil => simp [charListLt] at h
    | cons y ys =>
      simp only [charListLt] at h ⊢
      by_cases h1 : x.toNat < y.toNat <;>
        by_cases h2 : y.toNat < x.toNat <;>
        simp_all [ih]
      omega

/-- Non-strictness is transitive for the character-list order. -/
theorem charListLt_le_trans :
    ∀ {a b c : List Char},
      charListLt b a = false → charListLt c b = false → charListLt c a = false := by
  intro a
  induction a with
  | nil =>
    intro b c hba hcb
    cases c with
    | nil => simp [charListLt]
    | cons z zs =>
      cases b with
      | nil => simp_all [charListLt]
      | cons y ys => simp_all [charListLt]
  | cons x xs ih =>
    intro b c hba hcb
    cases c with
    | nil =>
      cases b with
      | nil => simp_all [charListLt]
      | cons y ys => simp_all [charListLt]
    | cons z zs =>
      cases b with
      | nil => simp_all [charListLt]
      | cons y ys =>
        simp only [charListLt] at hba hcb ⊢
        by_cases h1 : y.toNat < x.toNat
        · simp_all
        · by_cases h2 : x.toNat < y.toNat <;>
            by_cases h3 : z.toNat < y.toNat <;>
            by_cases h4 : y.toNat < z.toNat <;>
            by_cases h5 : z.toNat < x.toNat <;>
            by_cases h6 : x.toNat < z.toNat <;>
            simp_all <;>
            first
            | omega
            | exact ih hba hcb

/-- Unfolded characterization of `RankLe`: larger score first, equal score
resolved by name order. -/
theorem rankLe_iff (x y : Sector × Int) :
    RankLe x y ↔ y.2 < x.2 ∨ (x.2 = y.2 ∧ stringLeB x.1.name y.1.name = true) := by
  unfold RankLe rankComparator stringsCompare stringLeB
  by_cases hs : x.2 = y.2
  · simp only [hs, if_pos rfl]
    by_cases h1 : stringLtB x.1.name y.1.name
    · have h2 := charListLt_asymm (a := x.1.name.toList) (b := y.1.name.toList) h1
      simp_all [stringLtB]
    · by_cases h2 : stringLtB y.1.name x.1.name <;> simp_all
  · simp only [if_neg hs]
    constructor
    · intro h
      left
      omega
    · rintro (h | ⟨h, _⟩)
      · omega
      · exact absurd h hs

instance : IsTotal (Sector × Int) RankLe :=
  ⟨fun x y => by
    rw [rankLe_iff, rankLe_iff]
    rcases lt_trichotomy x.2 y.2 with h | h | h
    · right; left; exact h
    · by_cases hn : stringLtB y.1.name x.1.name
      · right; right
        refine ⟨h.symm, ?_⟩
        have ha : charListLt x.1.name.data y.1.name.data = false :=
          charListLt_asymm hn
        simp [stringLeB, stringLtB, ha]
      · left; right
        exact ⟨h, by simp [stringLeB, hn]⟩
    · left; left; exact h⟩

instance : IsTrans (Sector × Int) RankLe :=
  ⟨fun x y z hxy hyz => by
    rw [rankLe_iff] at hxy hyz ⊢
    rcases hxy with h1 | ⟨h1, hn1⟩ <;> rcases hyz with h2 | ⟨h2, hn2⟩
    · left; omega
    · left; omega
    · left; omega
    · right
      refine ⟨h1.trans h2, ?_⟩
      unfold stringLeB stringLtB at hn1 hn2 ⊢
      simp only [Bool.not_eq_true'] at hn1 hn2 ⊢
      exact charListLt_le_trans hn1 hn2⟩

/-- The ranking sort of the industry-list component, modelling the stable
`Array.sort` call with the rank comparator by a stable insertion sort. -/
def sortRanking (l : List (Sector × Int)) : List (Sector × Int) :=
  List.insertionSort RankLe l

/-- The no-result branch of the ranking construction: every sector gets
score 0. -/
def rankingNoResult (sectors : List Sector) : List (Sector × Int) :=
  sectors.map (fun s => (s, 0))

/--
The current-page computation of the Paginator component: the effective
count defaults to -1 and is capped at the total, the page count is the
ceiling of total over count (0 for a non-positive count), and the displayed
page is clamped into `[1, pageCount]`.
-/
def paginatorPage (total : Int) (cfgCount cfgPage : Option Int) : Int :=
  let count0 := jsOrInt cfgCount (-1)
  let count := if count0 > total then total else count0
  let pageCount := if count > 0 then (total + count - 1) / count else 0
  let page0 := jsOrInt cfgPage 1
  let page1 := if page0 ≤ 0 then 1 else page0
  if page1 > pageCount then pageCount else page1

/--
Modelled from the spec: `util/strings.ts` (the `isMember` helper) is not
under the sources; the view mode is a multi-valued field and `isMember`
tests whether a token is one of its values (false for an absent field).
The theorems below about the update cycle hold for either truth value of
this test, so nothing depends on the modelling beyond its type.
-/
def isMember (token : String) (field : Option (List String)) : Bool :=
  match field with
  | none => false
  | some l => l.contains token

/--
The stale-result check of the industry list: no calculation without a new
configuration or outside the mosaic view; always a calculation when there
is no previous configuration or no previous result; otherwise a
calculation exactly when one of the calculation-relevant fields (view,
perspective, analysis, year, location — the source lists view twice)
changed.  The source compares the fields with strict inequality; the
embedding compares their values.
-/
def needsCalculation (oldConfig newConfig : Option Config) (hasResult : Bool) : Bool :=
  match newConfig with
  | none => false
  | some nc =>
    if !isMember "mosaic" nc.view then false
    else
      match oldConfig with
      | none => true
      | some oc =>
        if !hasResult then true
        else
          (oc.view != nc.view) || (oc.perspective != nc.perspective) ||
            (oc.analysis != nc.analysis) || (oc.year != nc.year) ||
            (oc.location != nc.location)

/--
The result-relevant part of `handleUpdate`: the stale check runs against
the previous configuration and the presence of a previous result, and the
stored result is replaced by a fresh calculation only when the check says
so.  The asynchronous `calculate` call is abstracted as a function
argument; nothing else in `handleUpdate` writes the result field.
-/
def handleUpdateResult {ρ : Type} (calcFn : Config → ρ)
    (oldConfig : Option Config) (result : Option ρ) (config : Config) : Option ρ :=
  if needsCalculation oldConfig (some config) result.isSome then some (calcFn config)
  else result

/-- A delimited-export cell wrapped in double quotes, as the download code
emits for the sector code, sector name and indicator header cells. -/
def quoted (s : String) : String :=
  "\"" ++ s ++ "\""

/-- The header cell for one indicator column of the delimited export. -/
def indicatorHeaderCell (i : Indicator) : String :=
  quoted (i.code ++ " - " ++ i.name ++ " [" ++ i.unit ++ "]")

/-- The demand cell of a data row: JavaScript interpolates `undefined` when
the demand object has no entry for the sector code. -/
def demandCell (v : Option Int) : String :=
  match v with
  | none => "undefined"
  | some n => toString n

/--
The delimited-text export of the download section, as a list of lines each
holding its comma-separated cells: the header has the sector code and
sector name columns, a demand column exactly when the demand object is
present, and, exactly when both a result and the indicator array are
present, one column per indicator followed by a ranking column; every data
row mirrors the header.  The result values are abstracted as an
integer-valued function of indicator and sector.
-/
def csvLines (demand : Option (String → Option Int))
    (result : Option (Indicator → Sector → Int))
    (indicators : Option (List Indicator))
    (ranking : List (Sector × Int)) : List (List String) :=
  let header :=
    ["sector code", "sector name"]
      ++ (match demand with
          | none => []
          | some _ => ["demand"])
      ++ (match result, indicators with
          | some _, some is => is.map indicatorHeaderCell ++ ["ranking"]
          | _, _ => [])
  let row := fun (p : Sector × Int) =>
    [quoted p.1.code, quoted p.1.name]
      ++ (match demand with
          | none => []
          | some d => [demandCell (d p.1.code)])
      ++ (match result, indicators with
          | some f, some is => is.map (fun i => toString (f i p.1)) ++ [toString p.2]
          | _, _ => [])
  header :: ranking.map row

end IndustryList

namespace CommodityList

/-- One step of splitting a character list at a separator, the core of the
JavaScript `String.split` with a single-character separator. -/
def splitCh (sep : Char) : List Char → List (List Char)
  | [] => [[]]
  | c :: rest =>
    let r := splitCh sep rest
    if c = sep then [] :: r
    else
      match r with
      | [] => [[c]]
      | h :: t => (c :: h) :: t

/-- JavaScript `s.split(sep)` for a one-character separator: always at
least one part, empty parts kept. -/
def jsSplit (s : String) (sep : Char) : List String :=
  (splitCh sep s.toList).map (fun cs => String.mk cs)

/-- Whether a character is a decimal digit, by code point. -/
def isDigitC (c : Char) : Bool :=
  48 ≤ c.toNat && c.toNat ≤ 57

/-- Whether a character is a hexadecimal digit, by code point. -/
def isHexDigitC (c : Char) : Bool :=
  isDigitC c || (97 ≤ c.toNat && c.toNat ≤ 102) || (65 ≤ c.toNat && c.toNat ≤ 70)

/-- The numeric value of a decimal or hexadecimal digit character. -/
def digitValC (c : Char) : Nat :=
  if 48 ≤ c.toNat && c.toNat ≤ 57 then c.toNat - 48
  else if 97 ≤ c.toNat && c.toNat ≤ 102 then c.toNat - 87
  else if 65 ≤ c.toNat && c.toNat ≤ 70 then c.toNat - 55
  else 0

/-- Whether a character is whitespace for trimming purposes. -/
def isWhitespaceC (c : Char) : Bool :=
  c.toNat = 32 || (9 ≤ c.toNat && c.toNat ≤ 13)

/-- Trimming of surrounding whitespace, over the character list. -/
def trimChars (cs : List Char) : List Char :=
  ((cs.dropWhile isWhitespaceC).reverse.dropWhile isWhitespaceC).reverse

/--
JavaScript `parseInt` with no radix argument, as the commodity list applies
it to the factor part of a `code:factor` entry: leading whitespace and an
optional sign are skipped, a `0x`/`0X` prefix switches to base 16, the
longest digit prefix is converted, and an empty digit sequence yields `NaN`
(modelled as `none`).
-/
def parseIntJS (s : String) : Option Int :=
  let t := trimChars s.toList
  let signAndRest : Int × List Char :=
    match t with
    | '-' :: r => (-1, r)
    | '+' :: r => (1, r)
    | r => (1, r)
  let baseAndBody : Nat × List Char :=
    match signAndRest.2 with
    | '0' :: 'x' :: r => (16, r)
    | '0' :: 'X' :: r => (16, r)
    | r => (10, r)
  let ds := baseAndBody.2.takeWhile
    (fun c => if baseAndBody.1 = 16 then isHexDigitC c else isDigitC c)
  if ds.isEmpty then none
  else some (signAndRest.1 * (ds.foldl (fun a c => a * baseAndBody.1 + digitValC c) 0 : Nat))

/-- The selection map of the commodity list: sector code to scaling factor,
a JavaScript number that can be `NaN` (`none`). -/
abbrev Selection := List (String × Option Int)

/-- Property read `selection[k]`: the value of the first (and by
construction only) entry with key `k`, or `undefined`. -/
def selGet (m : Selection) (k : String) : Option (Option Int) :=
  (m.find? (fun p => p.1 == k)).map (fun p => p.2)

/-- Property write `selection[k] = v`: overwrite the entry in place, or
append a new one. -/
def selSet (m : Selection) (k : String) (v : Option Int) : Selection :=
  match m with
  | [] => [(k, v)]
  | p :: rest => if p.1 == k then (k, v) :: rest else p :: selSet rest k v

/-- Property removal `delete selection[k]`. -/
def selDelete (m : Selection) (k : String) : Selection :=
  m.filter (fun p => p.1 != k)

/--
The selection map built from the sector strings of the configuration: an
entry without a `:` maps the whole string to factor 100, an entry with one
maps the part before the first `:` to `parseInt` of the part after it;
later entries overwrite earlier ones.
-/
def parseSelection (sectors : List String) : Selection :=
  sectors.foldl
    (fun numMap code =>
      let parts := jsSplit code ':'
      if parts.length < 2 then selSet numMap code (some 100)
      else selSet numMap (parts.getD 0 "") (parseIntJS (parts.getD 1 "")))
    []

/-- The rendering of a selection value in a `code:factor` string;
JavaScript prints `NaN` for a not-a-number factor. -/
def jsNumToString (v : Option Int) : String :=
  match v with
  | none => "NaN"
  | some i => toString i

/-- `fireSelectionChange`: serialize the selection map back to
`code:factor` strings, dropping an entry with an empty key. -/
def serializeSelection (m : Selection) : List String :=
  m.filterMap (fun p => if p.1 == "" then none else some (p.1 ++ ":" ++ jsNumToString p.2))

/--
The click handler of the selection checkbox: rebuild the selection from
the configuration, remove the commodity when it is selected and add it
with factor 100 when it is not, and emit the serialized selection as the
new sector list.
-/
def checkboxClick (cfg : Config) (code : String) : List String :=
  let selection := parseSelection (cfg.sectors.getD [])
  let selected := (selGet selection code).isSome
  serializeSelection
    (if selected then selDelete selection code else selSet selection code (some 100))

/-- Fallback helper of the widgets: the default when the value is absent.
Modelled from the spec: `util/util.ts` is not under the sources; per the
spec a commodity scaling defaults to 100 when the selection has no factor
for it. -/
def ifNone (v : Option (Option Int)) (d : Int) : Option Int :=
  match v with
  | none => some d
  | some x => x

/-- A commodity of the grid widget: a sector projected with the selection
flag and the scaling value from the configuration. -/
structure Commodity where
  id : String := ""
  index : Nat := 0
  name : String := ""
  code : String := ""
  selected : Bool := false
  value : Option Int := some 100
  description : String := ""
deriving DecidableEq

/--
The commodity list derived on each render: every sector becomes a
commodity, selected exactly when the selection map has a (numeric) factor
for its code, and valued by that factor or by the default 100.
-/
def mkCommodities (cfg : Config) (sectors : List Sector) : List Commodity :=
  let selection := parseSelection (cfg.sectors.getD [])
  sectors.map (fun s =>
    { id := s.id
      index := s.index
      name := s.name
      code := s.code
      selected := (selGet selection s.code).isSome
      value := ifNone (selGet selection s.code) 100
      description := s.description })

/-- The page-change parameters of the data grid. -/
structure PageChangeParams where
  page : Int
  pageSize : Int
deriving DecidableEq

/-- The partial configuration update emitted for page changes. -/
structure PageCountChange where
  page : Int
  count : Int
deriving DecidableEq

/--
The `onPageChange` handler of the commodity list: no event when page and
size both equal the current (defaulted) configuration values; a jump back
to page 1 with the new size when the size changed; the new page and size
otherwise.
-/
def onPageChange (cfg : Config) (p : PageChangeParams) : Option PageCountChange :=
  let currentPage := jsOrInt cfg.page 1
  let currentSize := jsOrInt cfg.count 10
  if p.page = currentPage ∧ p.pageSize = currentSize then none
  else if p.pageSize ≠ currentSize then some { page := 1, count := p.pageSize }
  else some { page := p.page, count := p.pageSize }

end CommodityList

end USEEIO

namespace USEEIO

/-- Demo sectors used as concrete inputs. -/
def secA : Sector := { code := "A", name := "Apple" }

/-- Demo sector B. -/
def secB : Sector := { code := "B", name := "Banana" }

/-- Demo sector C. -/
def secC : Sector := { code := "C", name := "Cherry" }

/-- A concrete three-row ranking used as input for pagination facts. -/
def demoRanking : List (Sector × Int) := [(secA, 9), (secB, 5), (secC, 1)]

/-- C1: for every ranking list, page size `N ≥ 1` and page `P`, when the
page offset `(P-1)*N` lies inside the list, the rendered slice equals the
rows `[(P-1)*N, P*N)` of the full ranking, truncated at the end of the
list. -/
theorem IndustryList.paginate_in_range (l : List (Sector × Int)) (N P : Int)
    (hN : 1 ≤ N) (hoff0 : 0 ≤ (P - 1) * N) (hoff : (P - 1) * N < (l.length : Int)) :
    IndustryList.paginate l (some N) (some P) =
      (l.drop ((P - 1) * N).toNat).take N.toNat := by
  have hNpos : (0 : Int) < N := by omega
  have hP1 : 0 ≤ P - 1 := nonneg_of_mul_nonneg_right (mul_comm (P - 1) N ▸ hoff0) hNpos
  have hc : N ≠ 0 ∧ 0 ≤ N := by omega
  simp only [IndustryList.paginate]
  rw [if_pos hc]
  by_cases hp : P ≤ 1
  · have hPeq : P = 1 := by omega
    subst hPeq
    simp [IndustryList.jsSlice]
  · rw [if_neg hp, if_pos hoff]
    unfold IndustryList.jsSlice
    rw [List.drop_take]
    congr 1
    have h0 : 0 ≤ (P - 1) * N := hoff0
    omega

/-- Witness for C1 at a concrete input: three rows, page size 2, page 2. -/
theorem IndustryList.paginate_in_range_witness :
    (1 : Int) ≤ 2 ∧ (0 : Int) ≤ (2 - 1) * 2 ∧
      ((2 - 1) * 2 : Int) < (demoRanking.length : Int) ∧
      IndustryList.paginate demoRanking (some 2) (some 2) =
        (demoRanking.drop (((2 : Int) - 1) * 2).toNat).take (2 : Int).toNat :=
  ⟨by decide, by decide, by decide,
    IndustryList.paginate_in_range demoRanking 2 2 (by decide) (by decide) (by decide)⟩

/-- C2: at the concrete out-of-range input (3 rows, page size 2, page 5)
the component renders the rows of the FIRST page, while the paginator
header clamps the displayed current page to the last valid page (2), whose
rows are the third row only.  This exhibits the divergence between the
rendered slice and the last-valid-page clamping that the paginator itself
applies. -/
theorem IndustryList.paginate_out_of_range_first_page :
    IndustryList.paginate demoRanking (some 2) (some 5) = [(secA, 9), (secB, 5)] ∧
      (demoRanking.drop (((2 : Int) - 1) * 2).toNat).take (2 : Int).toNat = [(secC, 1)] ∧
      IndustryList.paginatorPage 3 (some 2) (some 5) = 2 := by
  refine ⟨?_, ?_, ?_⟩ <;> decide

/-- C3: the ranking of the industry list is ordered by descending score
with ties broken alphabetically by sector name, and the concrete
no-indicator example with sectors Apple and Banana (all scores zero) sorts
to the order Apple, Banana. -/
theorem IndustryList.ranking_sorted :
    (∀ l : List (Sector × Int),
      (IndustryList.sortRanking l).Pairwise
        (fun x y => y.2 ≤ x.2 ∧
          (x.2 = y.2 → IndustryList.stringLeB x.1.name y.1.name = true))) ∧
    (IndustryList.sortRanking (IndustryList.rankingNoResult [secA, secB])).map
        (fun r => r.1.name) = ["Apple", "Banana"] := by
  constructor
  · intro l
    have h := List.sorted_insertionSort IndustryList.RankLe l
    refine h.imp (fun hxy => ?_)
    rw [IndustryList.rankLe_iff] at hxy
    rcases hxy with h1 | ⟨h1, h2⟩
    · exact ⟨le_of_lt h1, fun he => absurd h1 (by omega)⟩
    · exact ⟨le_of_eq h1.symm, fun _ => h2⟩
  · decide

/-- C5: when a previous result exists and the new configuration agrees
with the previous one on all calculation-relevant fields (view,
perspective, analysis, year, location), the update does not recompute: the
stored result stays the same, for every possible calculation function. -/
theorem IndustryList.handleUpdate_keeps_result {ρ : Type} (calcFn : Config → ρ)
    (oc nc : Config) (r : ρ)
    (hview : oc.view = nc.view) (hper : oc.perspective = nc.perspective)
    (hana : oc.analysis = nc.analysis) (hyear : oc.year = nc.year)
    (hloc : oc.location = nc.location) :
    IndustryList.handleUpdateResult calcFn (some oc) (some r) nc = some r := by
  unfold IndustryList.handleUpdateResult IndustryList.needsCalculation
  cases hm : IndustryList.isMember "mosaic" nc.view <;>
    simp [hm, hview, hper, hana, hyear, hloc]

/-- A previous configuration in mosaic view with the values toggle on. -/
def ocDemo : Config := { view := some ["mosaic"], showvalues := true }

/-- The same configuration with only the display-only toggle changed. -/
def ncDemo : Config := { view := some ["mosaic"] }

/-- Witness for C5: toggling only the display-only `showvalues` field keeps
the stored result (7) unchanged. -/
theorem IndustryList.handleUpdate_keeps_result_witness :
    ocDemo.view = ncDemo.view ∧ ocDemo.perspective = ncDemo.perspective ∧
      ocDemo.analysis = ncDemo.analysis ∧ ocDemo.year = ncDemo.year ∧
      ocDemo.location = ncDemo.location ∧ ocDemo ≠ ncDemo ∧
      IndustryList.handleUpdateResult (fun _ => (0 : Nat)) (some ocDemo)
        (some 7) ncDemo = some 7 :=
  ⟨rfl, rfl, rfl, rfl, rfl, by decide,
    IndustryList.handleUpdate_keeps_result (fun _ => (0 : Nat)) ocDemo ncDemo 7
      rfl rfl rfl rfl rfl⟩

/-- A concrete result function for export inputs; the export column counts
do not depend on the result values. -/
def demoResultFn : Indicator → Sector → Int := fun _ _ => 0

/-- C4 counterexample: with a result present, an empty indicator list and
no demand, the export emits 3 columns (code, name, ranking) in the header
and in the data line, while the claimed formula
`2 + (demand? 1 : 0) + indicatorCount + (indicatorCount > 0 ? 1 : 0)`
gives 2: the ranking column is appended whenever a result is present, even
with zero indicators. -/
theorem IndustryList.csv_column_count_counterexample :
    (IndustryList.csvLines none (some demoResultFn) (some []) [(secA, 0)]).map
        List.length = [3, 3] ∧
      (3 : Nat) ≠ 2 + 0 + 0 + 0 := by
  constructor
  · rfl
  · decide

/-- C4 as amended: every line of the delimited export (header and data
rows) has exactly
`2 + (demand present ? 1 : 0) + (result and indicator array present ?
indicatorCount + 1 : 0)` cells, in the fixed order sector code, sector
name, optional demand, optional per-indicator cells, optional ranking. -/
theorem IndustryList.csv_column_count (demand : Option (String → Option Int))
    (result : Option (Indicator → Sector → Int))
    (indicators : Option (List Indicator)) (ranking : List (Sector × Int)) :
    (IndustryList.csvLines demand result indicators ranking).all
      (fun line => line.length ==
        2 + (if demand.isSome then 1 else 0) +
          (if result.isSome && indicators.isSome
            then (indicators.getD []).length + 1 else 0)) = true := by
  rw [List.all_eq_true]
  intro line hline
  unfold IndustryList.csvLines at hline
  simp only [List.mem_cons] at hline
  rcases hline with h | h
  · subst h
    cases demand <;> rcases result with _ | f <;> rcases indicators with _ | is <;>
      simp <;> omega
  · rcases List.mem_map.mp h with ⟨p, _, rfl⟩
    cases demand <;> rcases result with _ | f <;> rcases indicators with _ | is <;>
      simp <;> omega

/-- C9: for every configuration (present or absent) and every matrix kind,
selecting the matrix and reading the matrix back from the updated
configuration yields the selected matrix again. -/
theorem MatrixSelector.matrixOf_update (c : Option Config) (m : MatrixSelector.Matrix) :
    MatrixSelector.matrixOf (some (MatrixSelector.update c m)) = m := by
  cases m <;> cases c <;>
    simp [MatrixSelector.matrixOf, MatrixSelector.update, jsTruthyStr]
  all_goals
    rename_i cfg
    rcases h : cfg.analysis with _ | v
    · simp [h]
    · by_cases hv : v = "" <;> simp [h, hv]

namespace CommodityList

/-- Splitting never yields an empty part list. -/
theorem splitCh_ne_nil (sep : Char) (cs : List Char) :
    splitCh sep cs ≠ [] := by
  induction cs with
  | nil => simp [splitCh]
  | cons c rest ih =>
    simp only [splitCh]
    by_cases h : c = sep
    · simp [h]
    · rw [if_neg h]
      cases hr : splitCh sep rest with
      | nil => exact absurd hr ih
      | cons hh tt => simp

/-- No part produced by splitting contains the separator. -/
theorem splitCh_mem_no_sep (sep : Char) (cs : List Char) :
    ∀ part ∈ splitCh sep cs, sep ∉ part := by
  induction cs with
  | nil =>
    intro part hp
    simp [splitCh] at hp
    subst hp
    simp
  | cons c rest ih =>
    intro part hp
    simp only [splitCh] at hp
    by_cases h : c = sep
    · rw [if_pos h] at hp
      rcases List.mem_cons.mp hp with rfl | hp2
      · simp
      · exact ih part hp2
    · rw [if_neg h] at hp
      cases hr : splitCh sep rest with
      | nil => exact absurd hr (splitCh_ne_nil sep rest)
      | cons hh tt =>
        rw [hr] at hp
        simp only [] at hp
        rcases List.mem_cons.mp hp with rfl | hp2
        · intro hmem
          rcases List.mem_cons.mp hmem with he | hmem2
          · exact h he.symm
          · exact ih hh (hr ▸ List.mem_cons_self hh tt) hmem2
        · exact ih part (hr ▸ List.mem_cons_of_mem hh hp2)

/-- A list containing the separator splits into at least two parts. -/
theorem splitCh_length_ge_two (sep : Char) {cs : List Char} (h : sep ∈ cs) :
    2 ≤ (splitCh sep cs).length := by
  induction cs with
  | nil => simp at h
  | cons c rest ih =>
    simp only [splitCh]
    by_cases hc : c = sep
    · rw [if_pos hc]
      have hne := splitCh_ne_nil sep rest
      have hlen : 1 ≤ (splitCh sep rest).length := by
        cases hr : splitCh sep rest with
        | nil => exact absurd hr hne
        | cons hh tt => simp
      simp only [List.length_cons]
      omega
    · rw [if_neg hc]
      have hmem : sep ∈ rest := by
        rcases List.mem_cons.mp h with he | h2
        · exact absurd he.symm hc
        · exact h2
      have h2 := ih hmem
      cases hr : splitCh sep rest with
      | nil => exact absurd hr (splitCh_ne_nil sep rest)
      | cons hh tt =>
        rw [hr] at h2
        simpa using h2

/-- Splitting a list built around one separator occurrence detaches the
separator-free prefix as the first part. -/
theorem splitCh_append_sep (sep : Char) {ks : List Char} (rest : List Char)
    (h : sep ∉ ks) :
    splitCh sep (ks ++ sep :: rest) = ks :: splitCh sep rest := by
  induction ks with
  | nil => simp [splitCh]
  | cons c t ih =>
    have hc : ¬(c = sep) := fun he => h (he ▸ List.mem_cons_self c t)
    have ht : sep ∉ t := fun hm => h (List.mem_cons_of_mem c hm)
    simp only [List.cons_append, splitCh]
    rw [if_neg hc]
    rw [show splitCh sep (t.append (sep :: rest)) = t :: splitCh sep rest from ih ht]

/-- The key part of a serialized `key:value` entry is the key again when
the key is separator-free. -/
theorem jsSplit_key (k n : String) (hk : ':' ∉ k.toList) :
    (jsSplit (k ++ ":" ++ n) ':').getD 0 "" = k := by
  unfold jsSplit
  have hdata : (k ++ ":" ++ n).toList = k.toList ++ ':' :: n.toList := by
    show (k ++ ":" ++ n).data = k.data ++ ':' :: n.data
    simp [String.data_append]
  rw [hdata, splitCh_append_sep ':' n.toList hk]
  rfl

/-- The first part of any split is separator-free. -/
theorem jsSplit_getD_no_colon (s : String) :
    ':' ∉ ((jsSplit s ':').getD 0 "").toList := by
  unfold jsSplit
  cases hr : splitCh ':' s.toList with
  | nil => exact absurd hr (splitCh_ne_nil ':' s.toList)
  | cons hh tt =>
    have : hh ∈ splitCh ':' s.toList := hr ▸ List.mem_cons_self hh tt
    have hno := splitCh_mem_no_sep ':' s.toList hh this
    simpa using hno

/-- A short split means the whole string is separator-free. -/
theorem jsSplit_short_no_colon {s : String} (h : (jsSplit s ':').length < 2) :
    ':' ∉ s.toList := by
  intro hmem
  have := splitCh_length_ge_two ':' hmem
  unfold jsSplit at h
  rw [List.length_map] at h
  omega

/-- A lookup hit is a member of the selection. -/
theorem mem_of_selGet {m : Selection} {k : String} {v : Option Int}
    (h : selGet m k = some v) : (k, v) ∈ m := by
  unfold selGet at h
  cases hf : m.find? (fun p => p.1 == k) with
  | none => rw [hf] at h; simp at h
  | some p =>
    rw [hf] at h
    simp at h
    have hp := List.find?_some hf
    have hmem := List.mem_of_find?_eq_some hf
    have hk : p.1 = k := by simpa using hp
    have hpv : p = (k, v) := by
      cases p
      simp_all
    exact hpv ▸ hmem

/-- Writing a key makes it readable. -/
theorem selGet_selSet_self (m : Selection) (k : String) (v : Option Int) :
    selGet (selSet m k v) k = some v := by
  induction m with
  | nil => simp [selSet, selGet, List.find?]
  | cons p rest ih =>
    simp only [selSet]
    by_cases h : p.1 = k
    · simp [h, selGet, List.find?]
    · have hb : (p.1 == k) = false := by simpa using h
      rw [if_neg (by simp [hb])]
      unfold selGet at ih ⊢
      simp [List.find?, hb, ih]

/-- Writing one key leaves the lookup of any other key unchanged. -/
theorem selGet_selSet_ne (m : Selection) {c k : String} (v : Option Int)
    (hne : c ≠ k) :
    selGet (selSet m k v) c = selGet m c := by
  induction m with
  | nil =>
    have hb : (k == c) = false := by simpa using fun he => hne he.symm
    simp [selSet, selGet, List.find?, hb]
  | cons p rest ih =>
    simp only [selSet]
    by_cases h : p.1 = k
    · have hb : (k == c) = false := by simpa using fun he => hne he.symm
      have hb2 : (p.1 == c) = false := by simp [h, hb]
      simp [selGet, List.find?, hb, hb2, h]
    · have hbk : (p.1 == k) = false := by simpa using h
      rw [if_neg (by simp [hbk])]
      unfold selGet at ih ⊢
      by_cases hc : p.1 = c
      · simp [List.find?, hc]
      · have hbc : (p.1 == c) = false := by simpa using hc
        simp [List.find?, hbc, ih]

/-- Entries of the written selection come from the old selection or are the
written pair. -/
theorem mem_selSet {m : Selection} {k : String} {v : Option Int} :
    ∀ p ∈ selSet m k v, p ∈ m ∨ p = (k, v) := by
  induction m with
  | nil =>
    intro p hp
    simp [selSet] at hp
    exact Or.inr hp
  | cons q rest ih =>
    intro p hp
    simp only [selSet] at hp
    by_cases h : q.1 = k
    · rw [if_pos (by simp [h])] at hp
      rcases List.mem_cons.mp hp with rfl | hp2
      · exact Or.inr rfl
      · exact Or.inl (List.mem_cons_of_mem q hp2)
    · rw [if_neg (by simpa using h)] at hp
      rcases List.mem_cons.mp hp with rfl | hp2
      · exact Or.inl (List.mem_cons_self p rest)
      · rcases ih p hp2 with hin | heq
        · exact Or.inl (List.mem_cons_of_mem q hin)
        · exact Or.inr heq

/-- A selection entry with nonempty key serializes into the emitted sector
list. -/
theorem mem_serializeSelection {m : Selection} {p : String × Option Int}
    (hp : p ∈ m) (hne : p.1 ≠ "") :
    (p.1 ++ ":" ++ jsNumToString p.2) ∈ serializeSelection m := by
  unfold serializeSelection
  refine List.mem_filterMap.mpr ⟨p, hp, ?_⟩
  simp [hne]

/-- Every emitted entry is the serialization of a selection entry with a
nonempty key. -/
theorem of_mem_serializeSelection {m : Selection} {s : String}
    (hs : s ∈ serializeSelection m) :
    ∃ p ∈ m, p.1 ≠ "" ∧ s = p.1 ++ ":" ++ jsNumToString p.2 := by
  unfold serializeSelection at hs
  rcases List.mem_filterMap.mp hs with ⟨p, hp, hf⟩
  by_cases h : p.1 = ""
  · simp [h] at hf
  · rw [if_neg (by simpa using h)] at hf
    exact ⟨p, hp, h, by simpa using hf.symm⟩

/-- Every key in a parsed selection is colon-free. -/
theorem parseSelection_key_no_colon (l : List String) :
    ∀ p ∈ parseSelection l, ':' ∉ p.1.toList := by
  suffices haux : ∀ (l : List String) (acc : Selection),
      (∀ p ∈ acc, ':' ∉ p.1.toList) →
      ∀ p ∈ l.foldl
        (fun numMap code =>
          let parts := jsSplit code ':'
          if parts.length < 2 then selSet numMap code (some 100)
          else selSet numMap (parts.getD 0 "") (parseIntJS (parts.getD 1 "")))
        acc, ':' ∉ p.1.toList by
    intro p hp
    exact haux l [] (by simp) p hp
  intro l
  induction l with
  | nil =>
    intro acc hacc p hp
    simpa using hacc p (by simpa using hp)
  | cons code rest ih =>
    intro acc hacc p hp
    rw [List.foldl_cons] at hp
    refine ih _ ?_ p hp
    intro q hq
    by_cases hl : (jsSplit code ':').length < 2
    · rw [if_pos hl] at hq
      rcases mem_selSet q hq with hin | rfl
      · exact hacc q hin
      · exact jsSplit_short_no_colon hl
    · rw [if_neg hl] at hq
      rcases mem_selSet q hq with hin | rfl
      · exact hacc q hin
      · exact jsSplit_getD_no_colon code

/-- C6: clicking the selection checkbox of a commodity whose nonempty code
has no entry in the configuration sector selection emits a sector list
containing `code:100` together with the serialized entries of all
previously selected codes; clicking the checkbox of a selected commodity
emits a sector list in which no entry has that code as its key part. -/
theorem checkbox_toggle (cfg : Config) (code : String) (hcode : code ≠ "") :
    (selGet (parseSelection (cfg.sectors.getD [])) code = none →
      (code ++ ":100") ∈ checkboxClick cfg code ∧
      ∀ c v, selGet (parseSelection (cfg.sectors.getD [])) c = some v → c ≠ "" →
        (c ++ ":" ++ jsNumToString v) ∈ checkboxClick cfg code) ∧
    ((selGet (parseSelection (cfg.sectors.getD [])) code).isSome = true →
      ∀ s ∈ checkboxClick cfg code, (jsSplit s ':').getD 0 "" ≠ code) := by
  constructor
  · intro h
    have hclick : checkboxClick cfg code =
        serializeSelection
          (selSet (parseSelection (cfg.sectors.getD [])) code (some 100)) := by
      simp [checkboxClick, h]
    constructor
    · rw [hclick]
      have hg := selGet_selSet_self (parseSelection (cfg.sectors.getD [])) code (some 100)
      have hm := mem_of_selGet hg
      have hmem := mem_serializeSelection hm hcode
      have hstr : code ++ ":100" = code ++ ":" ++ jsNumToString (some 100) := by
        rw [String.append_assoc]
        rfl
      rw [hstr]
      exact hmem
    · intro c v hc hcne
      rw [hclick]
      have hccode : c ≠ code := by
        intro he
        rw [he, h] at hc
        cases hc
      have hg : selGet (selSet (parseSelection (cfg.sectors.getD [])) code (some 100)) c
          = some v := by
        rw [selGet_selSet_ne _ _ hccode]
        exact hc
      exact mem_serializeSelection (mem_of_selGet hg) hcne
  · intro h s hs
    have hclick : checkboxClick cfg code =
        serializeSelection (selDelete (parseSelection (cfg.sectors.getD [])) code) := by
      simp [checkboxClick, h]
    rw [hclick] at hs
    rcases of_mem_serializeSelection hs with ⟨p, hp, hpne, rfl⟩
    have hpp := List.mem_filter.mp hp
    have hkeyne : p.1 ≠ code := by simpa using hpp.2
    have hnc := parseSelection_key_no_colon _ p hpp.1
    rw [jsSplit_key p.1 (jsNumToString p.2) hnc]
    exact hkeyne

/-- A configuration whose selection holds one other commodity. -/
def cfgOneOther : Config := { sectors := some ["B:250"] }

/-- Witness for C6 at a concrete input: with only B selected (factor 250),
toggling the unselected commodity A emits `A:100` alongside the serialized
previous entries, and in a configuration where A is selected toggling
removes every `A` entry. -/
theorem checkbox_toggle_witness :
    ("A" : String) ≠ "" ∧
      ((selGet (parseSelection (cfgOneOther.sectors.getD [])) "A" = none →
        ("A" ++ ":100") ∈ checkboxClick cfgOneOther "A" ∧
        ∀ c v, selGet (parseSelection (cfgOneOther.sectors.getD [])) c = some v → c ≠ "" →
          (c ++ ":" ++ jsNumToString v) ∈ checkboxClick cfgOneOther "A") ∧
      ((selGet (parseSelection (cfgOneOther.sectors.getD [])) "A").isSome = true →
        ∀ s ∈ checkboxClick cfgOneOther "A", (jsSplit s ':').getD 0 "" ≠ "A")) :=
  ⟨by decide, checkbox_toggle cfgOneOther "A" (by decide)⟩

/-- The configuration used by the C7 witness: page size 10 configured. -/
def cfgCount10 : Config := { count := some 10 }

/-- C7: a page-change event whose page size differs from the configured
(nonzero) count emits the update `page 1, count = new size`. -/
theorem pageSize_change_resets (cfg : Config) (p : PageChangeParams) (c : Int)
    (hc : cfg.count = some c) (hc0 : c ≠ 0) (hne : p.pageSize ≠ c) :
    onPageChange cfg p = some { page := 1, count := p.pageSize } := by
  unfold onPageChange
  have hsize : jsOrInt cfg.count 10 = c := by
    rw [hc]
    simp [jsOrInt, hc0]
  rw [hsize]
  rw [if_neg (fun hand => hne hand.2)]
  rw [if_pos hne]

/-- Witness for C7: with count 10 configured, an event with page size 20
resets to page 1 with count 20. -/
theorem pageSize_change_resets_witness :
    cfgCount10.count = some 10 ∧ (10 : Int) ≠ 0 ∧ ((20 : Int) ≠ 10) ∧
      onPageChange cfgCount10 { page := 1, pageSize := 20 } =
        some { page := 1, count := 20 } :=
  ⟨rfl, by decide, by decide,
    pageSize_change_resets cfgCount10 { page := 1, pageSize := 20 } 10 rfl
      (by decide) (by decide)⟩

/-- The empty configuration used by the C10 witness. -/
def cfgEmpty : Config := {}

/-- C10: a page-change event that matches the current (defaulted) page and
page size emits no configuration update. -/
theorem no_redundant_page_event (cfg : Config) (p : PageChangeParams)
    (hpage : p.page = jsOrInt cfg.page 1) (hsize : p.pageSize = jsOrInt cfg.count 10) :
    onPageChange cfg p = none := by
  unfold onPageChange
  rw [if_pos ⟨hpage, hsize⟩]

/-- Witness for C10: with an empty configuration, the event page 1 size 10
matches the defaults and nothing is emitted. -/
theorem no_redundant_page_event_witness :
    ((1 : Int) = jsOrInt cfgEmpty.page 1) ∧ ((10 : Int) = jsOrInt cfgEmpty.count 10) ∧
      onPageChange cfgEmpty { page := 1, pageSize := 10 } = none :=
  ⟨rfl, rfl, no_redundant_page_event cfgEmpty { page := 1, pageSize := 10 } rfl rfl⟩

/-- A configuration carrying an out-of-range scaling factor. -/
def cfgScale501 : Config := { sectors := some ["A:501"] }

/-- C8 counterexample: the scaling value of a derived commodity is taken
unclamped from the configuration entry, so the entry `A:501` yields the
value 501, outside the claimed range 0 to 500. -/
theorem commodity_value_out_of_range :
    (mkCommodities cfgScale501 [secA]).map (fun c => c.value) = [some 501] ∧
      ¬((501 : Int) ≤ 500) := by
  constructor
  · rfl
  · decide

/-- A configuration whose factors all lie in the slider range. -/
def cfgScaleOk : Config := { sectors := some ["A:250", "B"] }

/-- C8 as amended: the commodity list is a pure function of the
configuration and the sector list, a commodity without a selection entry
gets the default value 100, and whenever every parsed factor of the
configuration lies in the slider range 0 to 500 (as every factor written
through the slider is), every derived commodity value lies in 0 to 500. -/
theorem commodity_value_range (cfg : Config) (sectors : List Sector)
    (hfac : (parseSelection (cfg.sectors.getD [])).all
      (fun p => match p.2 with
        | none => false
        | some n => decide (0 ≤ n ∧ n ≤ 500)) = true) :
    ∀ com ∈ mkCommodities cfg sectors,
      (∃ n, com.value = some n ∧ 0 ≤ n ∧ n ≤ 500) ∧
      (com.selected = false → com.value = some 100) := by
  intro com hcom
  unfold mkCommodities at hcom
  rcases List.mem_map.mp hcom with ⟨s, _, rfl⟩
  dsimp only
  constructor
  · cases hsel : selGet (parseSelection (cfg.sectors.getD [])) s.code with
    | none => exact ⟨100, by simp [ifNone, hsel], by omega, by omega⟩
    | some v =>
      have hmem := mem_of_selGet hsel
      have hall := List.all_eq_true.mp hfac _ hmem
      cases v with
      | none => simp at hall
      | some n =>
        simp only [decide_eq_true_eq] at hall
        exact ⟨n, by simp [ifNone, hsel], hall.1, hall.2⟩
  · intro hselfalse
    cases hsel : selGet (parseSelection (cfg.sectors.getD [])) s.code with
    | none => simp [ifNone, hsel]
    | some v =>
      rw [hsel] at hselfalse
      simp at hselfalse

/-- Witness for C8 as amended: with factors 250 and the default, both
derived commodities have values in range, and unselected sectors default
to 100. -/
theorem commodity_value_range_witness :
    ((parseSelection (cfgScaleOk.sectors.getD [])).all
      (fun p => match p.2 with
        | none => false
        | some n => decide (0 ≤ n ∧ n ≤ 500)) = true) ∧
    ∀ com ∈ mkCommodities cfgScaleOk [secA, secB, secC],
      (∃ n, com.value = some n ∧ 0 ≤ n ∧ n ≤ 500) ∧
      (com.selected = false → com.value = some 100) :=
  ⟨by decide, commodity_value_range cfgScaleOk [secA, secB, secC] (by decide)⟩

end CommodityList

end USEEIO
